import Mathlib

/-!
# The EUR/USD feed hook of `src/app.js`

A shallow embedding of `useEurUsdFeed` (the feed state, the socket handlers
`onopen`, `onclose`, `onerror`, `onmessage`, `connect`, the effect cleanup),
of `priceText` and of the status badge of `App`.

Conventions of the embedding.

* JavaScript values that can come out of `JSON.parse` are the type `JSVal`
  (with `undefined` added, because property reads produce it).
* Numbers are `JSNumber`: `NaN`, the two infinities, or a finite value given
  by the rational it is equal to. Every finite binary64 value is such a
  rational, so statements over all of `JSNumber` cover all numbers the program
  can hold. The conversion of text to a number rounds to binary64
  (`roundBinary64`). The sign of zero is not tracked (no operation of the
  program tells `-0` from `+0`).
* `JSON.parse` and the number-to-string conversion of the engine are not
  re-implemented; they are the two fields of `Host`.
* An exception that escapes is `Except.error`.
-/

namespace Ortex

/-! ## Values -/

/-- A JavaScript number. -/
inductive JSNumber where
  | nan
  | posInf
  | negInf
  | fin (q : ℚ)
  deriving DecidableEq

/-- A JavaScript value as produced by `JSON.parse`, plus `undefined`.
An object is the list of its properties in the order of the JSON text; when a
key is repeated the last binding is the property (`JSON.parse` overwrites). -/
inductive JSVal where
  | undefined
  | null
  | bool (b : Bool)
  | num (n : JSNumber)
  | str (s : String)
  | arr (xs : List JSVal)
  | obj (kvs : List (String × JSVal))

/-- The exceptions the modelled code can raise. -/
inductive JSError where
  | typeError
  deriving DecidableEq

/-- The engine functions that are taken as given. -/
structure Host where
  /-- `JSON.parse` on the text of a frame; `none` when it throws `SyntaxError`. -/
  jsonParse : String → Option JSVal
  /-- `Number::toString(x, 10)` of a finite number. -/
  numberToString : ℚ → String

/-- The test `v == null`: true for `null` and `undefined` only. -/
def JSVal.isNullish : JSVal → Bool
  | .undefined => true
  | .null => true
  | _ => false

/-- `Array.isArray(v)`. -/
def JSVal.isArray : JSVal → Bool
  | .arr _ => true
  | _ => false

/-- `ToBoolean(v)`. -/
def JSVal.truthy : JSVal → Bool
  | .undefined => false
  | .null => false
  | .bool b => b
  | .num .nan => false
  | .num (.fin q) => q != 0
  | .num _ => true
  | .str s => s != ""
  | .arr _ => true
  | .obj _ => true

/-- The last binding of `k` in a property list. -/
def lookupLast (k : String) : List (String × JSVal) → Option JSVal
  | [] => none
  | (k', v) :: rest =>
    match lookupLast k rest with
    | some w => some w
    | none => if k' = k then some v else none

/-- The read `v?.k` for the property names the program reads (`data`, `price`,
`Price`, `dt`, `DT`, `date`): none of them is an inherited property of
`Object`, `Array`, `String`, `Number` or `Boolean`, so only an own property of
an object yields a value. -/
def JSVal.get (v : JSVal) (k : String) : JSVal :=
  match v with
  | .obj kvs => (lookupLast k kvs).getD .undefined
  | _ => .undefined

/-- The read `v[0]` of an array. -/
def JSVal.index0 : JSVal → JSVal
  | .arr (x :: _) => x
  | _ => .undefined

/-- The operator `a ?? b`. -/
def nullish (a b : JSVal) : JSVal :=
  if a.isNullish then b else a

/-! ## Coercions of the engine -/

/-- Membership in `StrWhiteSpaceChar`: the `WhiteSpace` and `LineTerminator`
code points. -/
def isStrWhiteSpaceChar (c : Char) : Bool :=
  let n := c.toNat
  n == 0x9 || n == 0xA || n == 0xB || n == 0xC || n == 0xD || n == 0x20 || n == 0xA0 ||
  n == 0x1680 || (0x2000 ≤ n && n ≤ 0x200A) || n == 0x2028 || n == 0x2029 ||
  n == 0x202F || n == 0x205F || n == 0x3000 || n == 0xFEFF

/-- Strips leading and trailing `StrWhiteSpaceChar`. -/
def trimStr (cs : List Char) : List Char :=
  ((cs.dropWhile isStrWhiteSpaceChar).reverse.dropWhile isStrWhiteSpaceChar).reverse

/-- The value of one digit in a base up to 16, if it is one. -/
def digitValue (base : Nat) (c : Char) : Option Nat :=
  let n := c.toNat
  let d : Option Nat :=
    if 48 ≤ n ∧ n ≤ 57 then some (n - 48)
    else if 97 ≤ n ∧ n ≤ 102 then some (n - 87)
    else if 65 ≤ n ∧ n ≤ 70 then some (n - 55)
    else none
  match d with
  | some v => if v < base then some v else none
  | none => none

/-- Reads digits left to right onto an accumulator; `none` at a non-digit. -/
def readDigits (base : Nat) : Nat → List Char → Option Nat
  | acc, [] => some acc
  | acc, c :: cs =>
    match digitValue base c with
    | some v => readDigits base (acc * base + v) cs
    | none => none

/-- The value of a nonempty run of digits; `none` otherwise. -/
def readNat (base : Nat) (cs : List Char) : Option Nat :=
  match cs with
  | [] => none
  | _ => readDigits base 0 cs

/-- The production `SignedInteger` of an exponent part. -/
def readSignedInt (cs : List Char) : Option Int :=
  match cs with
  | '+' :: t => (readNat 10 t).map Int.ofNat
  | '-' :: t => (readNat 10 t).map (fun n => - Int.ofNat n)
  | _ => (readNat 10 cs).map Int.ofNat

/-- The nearest integer to `a / b`, the even one at a tie, for `b > 0`. -/
def roundHalfEven (a b : Nat) : Nat :=
  let n := a / b
  let r := a % b
  if 2 * r < b then n
  else if b < 2 * r then n + 1
  else if n % 2 = 0 then n
  else n + 1

/-- Halving `n` until it is below 2, at most `fuel` times, counting the steps. -/
def log2Steps : Nat → Nat → Nat
  | 0, _ => 0
  | fuel + 1, n => if n < 2 then 0 else log2Steps fuel (n / 2) + 1

/-- The integer `⌊log₂ n⌋` for `n > 0`. -/
def ilog2 (n : Nat) : Nat :=
  log2Steps n n

/-- The integer `⌊log₂ (a / b)⌋` for positive `a` and `b`: the difference of
`⌊log₂ a⌋` and `⌊log₂ b⌋`, or one less. -/
def floorLog2 (a b : Nat) : Int :=
  let d : Int := (ilog2 a : Int) - (ilog2 b : Int)
  if (if 0 ≤ d then b * 2 ^ d.toNat ≤ a else b ≤ a * 2 ^ (-d).toNat) then d else d - 1

/-- The Number value for the rational `a / b ≥ 0` (`b > 0`): the binary64
value nearest to it, the one with even significand at a tie. The spacing of
binary64 values around `a / b` is `2^p` with `p = max ⌊log₂ (a / b)⌋ (-1022) - 52`
(`-1022` is the exponent of the subnormal range); the result is `n * 2^p` for
the integer `n` nearest to `(a / b) / 2^p`, and `Infinity` when that reaches
`2^1024`. -/
def roundBinary64 (a b : Nat) : JSNumber :=
  if a = 0 then .fin 0
  else
    let e := floorLog2 a b
    let p : Int := max e (-1022) - 52
    let n : Nat :=
      if 0 ≤ p then roundHalfEven a (b * 2 ^ p.toNat)
      else roundHalfEven (a * 2 ^ (-p).toNat) b
    if 0 ≤ p ∧ 2 ^ 1024 ≤ n * 2 ^ p.toNat then .posInf
    else .fin ((n : ℚ) * (2 : ℚ) ^ p)

/-- The production `StrUnsignedDecimalLiteral`: `Infinity`, `d+.d*[e±d+]`,
`.d+[e±d+]` or `d+[e±d+]`; anything else is `NaN`. The mathematical value
`m * 10^(e - number of fraction digits)` is rounded to binary64. -/
def strUnsignedDecimal (cs : List Char) : JSNumber :=
  if cs = "Infinity".toList then .posInf
  else
    let ip := cs.takeWhile Char.isDigit
    let r1 := cs.dropWhile Char.isDigit
    let fp := match r1 with
      | '.' :: t => t.takeWhile Char.isDigit
      | _ => []
    let r2 := match r1 with
      | '.' :: t => t.dropWhile Char.isDigit
      | _ => r1
    let ex : Option Int := match r2 with
      | [] => some 0
      | 'e' :: t => readSignedInt t
      | 'E' :: t => readSignedInt t
      | _ => none
    match readNat 10 (ip ++ fp), ex with
    | some m, some e =>
      let k : Int := e - (fp.length : Int)
      if 0 ≤ k then roundBinary64 (m * 10 ^ k.toNat) 1
      else roundBinary64 m (10 ^ (-k).toNat)
    | _, _ => .nan

/-- The production `NonDecimalIntegerLiteral` after its two-character prefix,
rounded to binary64. -/
def strRadix (base : Nat) (cs : List Char) : JSNumber :=
  match readNat base cs with
  | some m => roundBinary64 m 1
  | none => .nan

/-- Negation of a number. -/
def JSNumber.neg : JSNumber → JSNumber
  | .nan => .nan
  | .posInf => .negInf
  | .negInf => .posInf
  | .fin q => .fin (-q)

/-- `StringToNumber(s)`: the empty or all-blank string is `0`, text that is
not a `StringNumericLiteral` is `NaN`, and the value of a literal is rounded
to binary64. -/
def StringToNumber (s : String) : JSNumber :=
  match trimStr s.toList with
  | [] => .fin 0
  | '+' :: t => strUnsignedDecimal t
  | '-' :: t => (strUnsignedDecimal t).neg
  | '0' :: 'x' :: t => strRadix 16 t
  | '0' :: 'X' :: t => strRadix 16 t
  | '0' :: 'o' :: t => strRadix 8 t
  | '0' :: 'O' :: t => strRadix 8 t
  | '0' :: 'b' :: t => strRadix 2 t
  | '0' :: 'B' :: t => strRadix 2 t
  | cs => strUnsignedDecimal cs

/-- `Number::toString(n, 10)`; the finite case is the engine's. -/
def numberToString (h : Host) : JSNumber → String
  | .nan => "NaN"
  | .posInf => "Infinity"
  | .negInf => "-Infinity"
  | .fin q => h.numberToString q

mutual
/-- `ToString(v)`. For an array it is `Array.prototype.join` with `","`; for
an object it is `OrdinaryToPrimitive`: a value parsed from JSON has no
callable own property, so an own `toString` hides `Object.prototype.toString`
and the conversion throws `TypeError`, and otherwise the result is
`"[object Object]"`. -/
def toStringJS (h : Host) : JSVal → Except JSError String
  | .undefined => .ok "undefined"
  | .null => .ok "null"
  | .bool b => .ok (if b then "true" else "false")
  | .num n => .ok (numberToString h n)
  | .str s => .ok s
  | .arr xs => joinJS h xs
  | .obj kvs =>
    match lookupLast "toString" kvs with
    | some _ => .error .typeError
    | none => .ok "[object Object]"
/-- The body of `join`: `undefined` and `null` elements give the empty string. -/
def joinJS (h : Host) : List JSVal → Except JSError String
  | [] => .ok ""
  | x :: rest =>
    match (if x.isNullish then .ok "" else toStringJS h x) with
    | .error e => .error e
    | .ok sx =>
      match rest with
      | [] => .ok sx
      | _ :: _ =>
        match joinJS h rest with
        | .error e => .error e
        | .ok sr => .ok (sx ++ "," ++ sr)
end

/-- `Number(v)`, that is `ToNumber(v)`. An array or object is first converted
by `ToPrimitive`, which for values parsed from JSON is `toStringJS`. -/
def Number (h : Host) : JSVal → Except JSError JSNumber
  | .undefined => .ok .nan
  | .null => .ok (.fin 0)
  | .bool b => .ok (.fin (if b then 1 else 0))
  | .num n => .ok n
  | .str s => .ok (StringToNumber s)
  | v =>
    match toStringJS h v with
    | .error e => .error e
    | .ok s => .ok (StringToNumber s)

/-- `Number.isNaN(n)`. -/
def JSNumber.isNaN : JSNumber → Bool
  | .nan => true
  | _ => false

/-- The integer `n` for which `n - x` is closest to zero, the larger one when
two are equally close, for `x ≥ 0`. -/
def roundHalfUp (x : ℚ) : Nat :=
  (Int.floor (x + 1 / 2)).toNat

/-- `Number.prototype.toFixed(f)` for `0 ≤ f ≤ 100`, as a list of characters.
A non-finite number is rendered by `Number::toString`; a finite one of
magnitude at least `10^21` too, after the sign. Below that the digits of the
rounded integer `n` are padded with zeros to more than `f` digits and the
point is put before the last `f`. -/
def toFixedChars (h : Host) (x : JSNumber) (f : Nat) : List Char :=
  match x with
  | .fin q =>
    let s : List Char := if q < 0 then ['-'] else []
    let x : ℚ := if q < 0 then -q else q
    if (10 : ℚ) ^ 21 ≤ x then s ++ (h.numberToString x).toList
    else
      let n := roundHalfUp (x * (10 : ℚ) ^ f)
      let m : List Char := if n = 0 then ['0'] else Nat.toDigits 10 n
      if f ≠ 0 then
        let k := m.length
        let m := if k ≤ f then List.replicate (f + 1 - k) '0' ++ m else m
        let k := if k ≤ f then f + 1 else k
        s ++ (m.take (k - f) ++ '.' :: m.drop (k - f))
      else s ++ m
  | n => (numberToString h n).toList

/-- `x.toFixed(f)`. -/
def toFixed (h : Host) (x : JSNumber) (f : Nat) : String :=
  String.mk (toFixedChars h x f)

/-! ## The feed hook -/

/-- The object held by `useState` in `useEurUsdFeed`. `price` is `null`
(`none`) or a number, `error` is `null` or a string, `dt` is `null` or a
value taken from a frame. -/
structure FeedState where
  connected : Bool
  error : Option String
  price : Option JSNumber
  dt : JSVal
  rawTopic : String

/-- The argument of `useState`. -/
def initialState : FeedState :=
  { connected := false, error := none, price := none, dt := .null, rawTopic := "EURUSD:CUR" }

/-- The constant `WS_URL`. -/
def WS_URL : String := "ws://stream.tradingeconomics.com/?client=guest:guest"

/-- The text `JSON.stringify({ topic: "subscribe", to: "EURUSD:CUR" })`. -/
def subscribeFrame : String :=
  "\x7b\"topic\":\"subscribe\",\"to\":\"EURUSD:CUR\"\x7d"

/-- The message set by `onerror`. -/
def errorAdvice : String :=
  "WebSocket error (some browsers block ws:// on local files). Try running via a local server."

/-- Everything the effect of `useEurUsdFeed` reads or writes.
`sockets` are the URLs passed to `new WebSocket`, in order of creation, and a
socket is named by its position; `sent` are the frames passed to `send`;
`closing` are the sockets on which `close()` has taken effect (a further
`close()` on one of them does nothing); `timers` are the delays of the
`setTimeout(() => connect(), d)` calls that have not fired yet. -/
structure Hook where
  state : FeedState
  alive : Bool
  wsRef : Option Nat
  lastMessageAt : Nat
  sockets : List String
  sent : List (Nat × String)
  closing : List Nat
  timers : List Nat

/-- The hook when the effect has run `let alive = true` and nothing else. -/
def Hook.init : Hook :=
  { state := initialState, alive := true, wsRef := none, lastMessageAt := 0,
    sockets := [], sent := [], closing := [], timers := [] }

/-- The function `connect`. -/
def connect (sys : Hook) : Hook :=
  if !sys.alive then sys
  else
    { sys with
      state := { sys.state with error := none }
      sockets := sys.sockets ++ [WS_URL]
      wsRef := some sys.sockets.length }

/-- The handler `ws.onopen` of socket `ws`. -/
def onopen (ws : Nat) (sys : Hook) : Hook :=
  if !sys.alive then sys
  else
    { sys with
      state := { sys.state with connected := true, error := none }
      sent := sys.sent ++ [(ws, subscribeFrame)] }

/-- The handler `ws.onclose`. -/
def onclose (sys : Hook) : Hook :=
  if !sys.alive then sys
  else
    { sys with
      state := { sys.state with connected := false }
      timers := sys.timers ++ [1200] }

/-- The handler `ws.onerror`. -/
def onerror (sys : Hook) : Hook :=
  if !sys.alive then sys
  else
    { sys with state := { sys.state with connected := false, error := some errorAdvice } }

/-- The expression for `candidate` in `onmessage`. -/
def candidate (parsed : JSVal) : JSVal :=
  if parsed.isArray then parsed.index0
  else if (parsed.get "data").truthy && (parsed.get "data").isArray then (parsed.get "data").index0
  else parsed

/-- The expression `candidate?.price ?? candidate?.Price ?? null`. -/
def priceOf (c : JSVal) : JSVal :=
  nullish (nullish (c.get "price") (c.get "Price")) .null

/-- The expression `candidate?.dt ?? candidate?.DT ?? candidate?.date ?? null`. -/
def dtOf (c : JSVal) : JSVal :=
  nullish (nullish (nullish (c.get "dt") (c.get "DT")) (c.get "date")) .null

/-- The updater that `onmessage` passes to `setState`. It raises when
`Number(price)` does. -/
def messageUpdate (h : Host) (price dt : JSVal) (s : FeedState) : Except JSError FeedState :=
  match (if !price.isNullish then (Number h price).map some else .ok s.price) with
  | .error e => .error e
  | .ok p => .ok { s with price := p, dt := if !dt.isNullish then dt else s.dt, error := none }

/-- The handler `ws.onmessage` on a frame with text `data`, `now` being the
value of `Date.now()`. A `SyntaxError` of `JSON.parse` is caught by the
`try`; the updater runs outside it, so its exception is not. -/
def onmessage (h : Host) (data : String) (now : Nat) (sys : Hook) : Except JSError Hook :=
  if !sys.alive then .ok sys
  else
    let sys := { sys with lastMessageAt := now }
    match h.jsonParse data with
    | none => .ok sys
    | some parsed =>
      let c := candidate parsed
      let price := priceOf c
      let dt := dtOf c
      if !price.isNullish || !dt.isNullish then
        match messageUpdate h price dt sys.state with
        | .error e => .error e
        | .ok st => .ok { sys with state := st }
      else .ok sys

/-- The cleanup returned by the effect, called `stop` in the specification. -/
def cleanup (sys : Hook) : Hook :=
  { sys with
    alive := false
    closing :=
      match sys.wsRef with
      | some ws => if ws ∈ sys.closing then sys.closing else sys.closing ++ [ws]
      | none => sys.closing }

/-- The oldest pending timer fires and runs `connect()`. -/
def fireTimer (sys : Hook) : Hook :=
  match sys.timers with
  | [] => sys
  | _ :: rest => connect { sys with timers := rest }

/-- What can happen to the hook. -/
inductive Event where
  | connect
  | wsOpen (ws : Nat)
  | wsClose (ws : Nat)
  | wsError (ws : Nat)
  | wsMessage (ws : Nat) (data : String) (now : Nat)
  | timer
  | stop

/-- One event. -/
def step (h : Host) (sys : Hook) : Event → Except JSError Hook
  | .connect => .ok (connect sys)
  | .wsOpen ws => .ok (onopen ws sys)
  | .wsClose _ => .ok (onclose sys)
  | .wsError _ => .ok (onerror sys)
  | .wsMessage _ data now => onmessage h data now sys
  | .timer => .ok (fireTimer sys)
  | .stop => .ok (cleanup sys)

/-- A sequence of events, stopping at the first exception. -/
def run (h : Host) (sys : Hook) : List Event → Except JSError Hook
  | [] => .ok sys
  | ev :: evs =>
    match step h sys ev with
    | .error e => .error e
    | .ok sys' => run h sys' evs

/-- The memo `priceText`. -/
def priceText (h : Host) (price : Option JSNumber) : String :=
  match price with
  | none => "—"
  | some n => if n.isNaN then "—" else toFixed h n 5

/-- The test `feed.error ? _ : _` on a value that is `null` or a string. -/
def errorTruthy : Option String → Bool
  | none => false
  | some e => e != ""

/-- The text of the status badge in `App`. -/
def badge (s : FeedState) : String :=
  if errorTruthy s.error then "Error"
  else if s.connected then "Connected"
  else "Connecting"

/-! ## Sample frames -/

/-- A host for the worked examples: each sample frame is mapped to the value
`JSON.parse` gives for it (the number `1.2` of the third frame is given as the
decimal it denotes), every other text is treated as malformed, and the
rendering of large numbers is a fixed stand-in. -/
def sampleHost : Host where
  jsonParse := fun t =>
    if t = "\x7b\"data\":[\x7b\"Price\": \"1.0850\", \"DT\": 1700000000000\x7d]\x7d" then
      some (.obj [("data", .arr [.obj [("Price", .str "1.0850"),
        ("DT", .num (.fin 1700000000000))]])])
    else if t = "\x7b\"price\":\"abc\"\x7d" then some (.obj [("price", .str "abc")])
    else if t = "\x7b\"price\":1.2\x7d" then some (.obj [("price", .num (.fin (6 / 5)))])
    else if t = "\x7b\"dt\":1700000000000\x7d" then
      some (.obj [("dt", .num (.fin 1700000000000))])
    else if t = "\x7b\"price\":\"Infinity\"\x7d" then
      some (.obj [("price", .str "Infinity")])
    else if t = "[]" then some (.arr [])
    else if t = "\x7b\"price\":\x7b\"toString\":1\x7d\x7d" then
      some (.obj [("price", .obj [("toString", .num (.fin 1))])])
    else none
  numberToString := fun _ => "1e+21"

/-! ## Lemmas on the handlers -/

theorem connect_dead (sys : Hook) (hd : sys.alive = false) : connect sys = sys := by
  simp [connect, hd]

theorem onopen_dead (ws : Nat) (sys : Hook) (hd : sys.alive = false) : onopen ws sys = sys := by
  simp [onopen, hd]

theorem onclose_dead (sys : Hook) (hd : sys.alive = false) : onclose sys = sys := by
  simp [onclose, hd]

theorem onerror_dead (sys : Hook) (hd : sys.alive = false) : onerror sys = sys := by
  simp [onerror, hd]

theorem onmessage_dead (h : Host) (data : String) (now : Nat) (sys : Hook)
    (hd : sys.alive = false) : onmessage h data now sys = .ok sys := by
  simp [onmessage, hd]

/-- After the cleanup a single event leaves everything but the timer queue as
it is, and the queue can only lose its head. -/
theorem step_dead (h : Host) (sys : Hook) (ev : Event) (hd : sys.alive = false) :
    ∃ sys1, step h sys ev = .ok sys1 ∧ sys1.alive = false ∧ sys1.state = sys.state ∧
      sys1.sockets = sys.sockets ∧ sys1.sent = sys.sent ∧
      sys1.lastMessageAt = sys.lastMessageAt ∧ sys1.wsRef = sys.wsRef ∧
      sys1.timers <:+ sys.timers := by
  cases ev with
  | connect => exact ⟨sys, by simp [step, connect_dead sys hd], hd, rfl, rfl, rfl, rfl, rfl,
      List.suffix_refl _⟩
  | wsOpen ws => exact ⟨sys, by simp [step, onopen_dead ws sys hd], hd, rfl, rfl, rfl, rfl, rfl,
      List.suffix_refl _⟩
  | wsClose ws => exact ⟨sys, by simp [step, onclose_dead sys hd], hd, rfl, rfl, rfl, rfl, rfl,
      List.suffix_refl _⟩
  | wsError ws => exact ⟨sys, by simp [step, onerror_dead sys hd], hd, rfl, rfl, rfl, rfl, rfl,
      List.suffix_refl _⟩
  | wsMessage ws data now =>
    exact ⟨sys, by simp [step, onmessage_dead h data now sys hd], hd, rfl, rfl, rfl, rfl, rfl,
      List.suffix_refl _⟩
  | timer =>
    cases ht : sys.timers with
    | nil => exact ⟨sys, by simp [step, fireTimer, ht], hd, rfl, rfl, rfl, rfl, rfl,
        by simp [ht]⟩
    | cons d rest =>
      refine ⟨{ sys with timers := rest }, ?_, hd, rfl, rfl, rfl, rfl, rfl, ?_⟩
      · simp [step, fireTimer, ht, connect, hd]
      · simp
  | stop =>
    exact ⟨cleanup sys, by simp [step], by simp [cleanup], by simp [cleanup],
      by simp [cleanup], by simp [cleanup], by simp [cleanup], by simp [cleanup],
      by simp [cleanup]⟩

/-- After the cleanup any sequence of events leaves the state, the sockets,
the frames sent and the clock reading as they are and adds no timer. -/
theorem run_dead (h : Host) (evs : List Event) : ∀ (sys : Hook), sys.alive = false →
    ∃ sys1, run h sys evs = .ok sys1 ∧ sys1.alive = false ∧ sys1.state = sys.state ∧
      sys1.sockets = sys.sockets ∧ sys1.sent = sys.sent ∧
      sys1.lastMessageAt = sys.lastMessageAt ∧ sys1.timers <:+ sys.timers := by
  induction evs with
  | nil => intro sys hd; exact ⟨sys, rfl, hd, rfl, rfl, rfl, rfl, List.suffix_refl _⟩
  | cons ev evs ih =>
    intro sys hd
    obtain ⟨sys1, hs, hd1, h1, h2, h3, h4, _, h6⟩ := step_dead h sys ev hd
    obtain ⟨sys2, hr, hd2, g1, g2, g3, g4, g6⟩ := ih sys1 hd1
    exact ⟨sys2, by simp [run, hs, hr], hd2, g1.trans h1, g2.trans h2, g3.trans h3,
      g4.trans h4, g6.trans h6⟩

theorem cleanup_cleanup (sys : Hook) : cleanup (cleanup sys) = cleanup sys := by
  cases hw : sys.wsRef with
  | none => simp [cleanup, hw]
  | some ws =>
    by_cases hm : ws ∈ sys.closing
    · simp [cleanup, hw, hm]
    · simp [cleanup, hw, hm]

theorem messageUpdate_ok (h : Host) (price dt : JSVal) (s st : FeedState)
    (hu : messageUpdate h price dt s = .ok st) :
    st.error = none ∧ st.connected = s.connected ∧ st.rawTopic = s.rawTopic := by
  unfold messageUpdate at hu
  split at hu
  · cases hu
  · cases hu; exact ⟨rfl, rfl, rfl⟩

/-- A message either leaves the state as it is or clears the error and keeps
`connected` and `rawTopic`. -/
theorem onmessage_ok (h : Host) (data : String) (now : Nat) (sys sys1 : Hook)
    (hm : onmessage h data now sys = .ok sys1) :
    sys1.state = sys.state ∨
      (sys1.state.error = none ∧ sys1.state.connected = sys.state.connected ∧
        sys1.state.rawTopic = sys.state.rawTopic) := by
  unfold onmessage at hm
  split at hm
  · cases hm; exact Or.inl rfl
  · split at hm
    · cases hm; exact Or.inl rfl
    · dsimp only at hm
      split at hm
      · split at hm
        · cases hm
        · rename_i st hst
          cases hm
          exact Or.inr (messageUpdate_ok h _ _ _ st hst)
      · cases hm; exact Or.inl rfl

/-- A frame that is malformed, or whose candidate has no price and no
timestamp, changes nothing but the clock reading. -/
theorem onmessage_ignored (h : Host) (data : String) (now : Nat) (sys : Hook)
    (hign : h.jsonParse data = none ∨ ∃ parsed, h.jsonParse data = some parsed ∧
      (priceOf (candidate parsed)).isNullish = true ∧ (dtOf (candidate parsed)).isNullish = true) :
    onmessage h data now sys =
      .ok { sys with lastMessageAt := if sys.alive then now else sys.lastMessageAt } := by
  obtain ⟨st, alive, wsRef, at0, sockets, sent, closing, timers⟩ := sys
  cases alive with
  | false => simp [onmessage]
  | true =>
    rcases hign with hn | ⟨parsed, hp, h1, h2⟩
    · simp [onmessage, hn]
    · simp [onmessage, hp, h1, h2]

theorem isNullish_null : JSVal.null.isNullish = true := rfl

theorem nullish_isNullish (a b : JSVal) :
    (nullish a b).isNullish = (a.isNullish && b.isNullish) := by
  unfold nullish
  cases ha : a.isNullish <;> simp [ha]

theorem priceOf_isNullish (c : JSVal) :
    (priceOf c).isNullish = ((c.get "price").isNullish && (c.get "Price").isNullish) := by
  rw [priceOf, nullish_isNullish, nullish_isNullish, isNullish_null, Bool.and_true]

theorem dtOf_isNullish (c : JSVal) :
    (dtOf c).isNullish =
      ((c.get "dt").isNullish && (c.get "DT").isNullish && (c.get "date").isNullish) := by
  rw [dtOf, nullish_isNullish, nullish_isNullish, nullish_isNullish, isNullish_null,
    Bool.and_true]

/-- The invariant of C5. -/
theorem step_invariant (h : Host) (sys sys1 : Hook) (ev : Event)
    (hi : sys.state.error ≠ none → sys.state.connected = false)
    (hs : step h sys ev = .ok sys1) :
    sys1.state.error ≠ none → sys1.state.connected = false := by
  cases ev with
  | connect =>
    simp only [step, Except.ok.injEq] at hs
    subst hs
    unfold connect
    split
    · exact hi
    · intro hne; exact absurd rfl hne
  | wsOpen ws =>
    simp only [step, Except.ok.injEq] at hs
    subst hs
    unfold onopen
    split
    · exact hi
    · intro hne; exact absurd rfl hne
  | wsClose ws =>
    simp only [step, Except.ok.injEq] at hs
    subst hs
    unfold onclose
    split
    · exact hi
    · intro _; rfl
  | wsError ws =>
    simp only [step, Except.ok.injEq] at hs
    subst hs
    unfold onerror
    split
    · exact hi
    · intro _; rfl
  | wsMessage ws data now =>
    simp only [step] at hs
    rcases onmessage_ok h data now sys sys1 hs with he | ⟨he, _, _⟩
    · rw [he]; exact hi
    · intro hne; exact absurd he hne
  | timer =>
    simp only [step, Except.ok.injEq] at hs
    subst hs
    unfold fireTimer
    split
    · exact hi
    · unfold connect
      split
      · exact hi
      · intro hne; exact absurd rfl hne
  | stop =>
    simp only [step, Except.ok.injEq] at hs
    subst hs
    exact hi

theorem run_invariant (h : Host) (evs : List Event) : ∀ (sys sys1 : Hook),
    (sys.state.error ≠ none → sys.state.connected = false) →
    run h sys evs = .ok sys1 →
    (sys1.state.error ≠ none → sys1.state.connected = false) := by
  induction evs with
  | nil =>
    intro sys sys1 hi hr
    simp only [run, Except.ok.injEq] at hr
    subst hr
    exact hi
  | cons ev evs ih =>
    intro sys sys1 hi hr
    unfold run at hr
    split at hr
    · cases hr
    · rename_i sys2 hs
      exact ih sys2 sys1 (step_invariant h sys sys2 ev hi hs) hr

theorem candidate_arr (o : JSVal) (rest : List JSVal) : candidate (.arr (o :: rest)) = o := by
  simp [candidate, JSVal.isArray, JSVal.index0]

theorem candidate_envelope (kvs : List (String × JSVal)) (o : JSVal) (rest : List JSVal)
    (hd : lookupLast "data" kvs = some (.arr (o :: rest))) : candidate (.obj kvs) = o := by
  simp [candidate, JSVal.isArray, JSVal.index0, JSVal.get, JSVal.truthy, hd]

theorem candidate_raw (kvs : List (String × JSVal))
    (hd : ∀ xs, lookupLast "data" kvs ≠ some (.arr xs)) : candidate (.obj kvs) = .obj kvs := by
  have hf : ((JSVal.obj kvs).get "data").isArray = false := by
    cases hl : lookupLast "data" kvs with
    | none => simp [JSVal.get, hl, JSVal.isArray]
    | some w =>
      cases w with
      | arr xs => exact absurd hl (hd xs)
      | _ => simp [JSVal.get, hl, JSVal.isArray]
  have ho : (JSVal.obj kvs).isArray = false := rfl
  unfold candidate
  rw [ho, hf]
  simp

theorem priceOf_price (c : JSVal) (hn : (c.get "price").isNullish = false) :
    priceOf c = c.get "price" := by
  simp [priceOf, nullish, hn]

theorem priceOf_Price (c : JSVal) (hn : (c.get "price").isNullish = true)
    (hm : (c.get "Price").isNullish = false) : priceOf c = c.get "Price" := by
  simp [priceOf, nullish, hn, hm]

theorem priceOf_absent (c : JSVal) (hn : (c.get "price").isNullish = true)
    (hm : (c.get "Price").isNullish = true) : priceOf c = .null := by
  simp [priceOf, nullish, hn, hm]

theorem dtOf_dt (c : JSVal) (hn : (c.get "dt").isNullish = false) : dtOf c = c.get "dt" := by
  simp [dtOf, nullish, hn]

theorem dtOf_DT (c : JSVal) (hn : (c.get "dt").isNullish = true)
    (hm : (c.get "DT").isNullish = false) : dtOf c = c.get "DT" := by
  simp [dtOf, nullish, hn, hm]

theorem dtOf_date (c : JSVal) (hn : (c.get "dt").isNullish = true)
    (hm : (c.get "DT").isNullish = true) (hk : (c.get "date").isNullish = false) :
    dtOf c = c.get "date" := by
  simp [dtOf, nullish, hn, hm, hk]

theorem dtOf_absent (c : JSVal) (hn : (c.get "dt").isNullish = true)
    (hm : (c.get "DT").isNullish = true) (hk : (c.get "date").isNullish = true) :
    dtOf c = .null := by
  simp [dtOf, nullish, hn, hm, hk]

/-- The value a frame carries as price: `price` when it is not null, else
`Price` when that is not null. -/
theorem priceOf_of_value (c v : JSVal)
    (hv : ((c.get "price").isNullish = false ∧ v = c.get "price") ∨
      ((c.get "price").isNullish = true ∧ (c.get "Price").isNullish = false ∧
        v = c.get "Price")) :
    priceOf c = v ∧ v.isNullish = false := by
  rcases hv with ⟨h1, h2⟩ | ⟨h1, h2, h3⟩
  · subst h2; exact ⟨priceOf_price c h1, h1⟩
  · subst h3; exact ⟨priceOf_Price c h1 h2, h2⟩

/-- The timestamp a frame carries: the first of `dt`, `DT`, `date` that is
not null. -/
theorem dtOf_of_value (c t : JSVal)
    (ht : ((c.get "dt").isNullish = false ∧ t = c.get "dt") ∨
      ((c.get "dt").isNullish = true ∧ (c.get "DT").isNullish = false ∧ t = c.get "DT") ∨
      ((c.get "dt").isNullish = true ∧ (c.get "DT").isNullish = true ∧
        (c.get "date").isNullish = false ∧ t = c.get "date")) :
    dtOf c = t ∧ t.isNullish = false := by
  rcases ht with ⟨h1, h2⟩ | ⟨h1, h2, h3⟩ | ⟨h1, h2, h3, h4⟩
  · subst h2; exact ⟨dtOf_dt c h1, h1⟩
  · subst h3; exact ⟨dtOf_DT c h1 h2, h2⟩
  · subst h4; exact ⟨dtOf_date c h1 h2 h3, h3⟩

/-- The handler on a frame that carries a price `v`: the outcome of
`Number(v)` decides the outcome of the handler. -/
theorem onmessage_price (h : Host) (data : String) (now : Nat) (sys : Hook) (parsed v : JSVal)
    (halive : sys.alive = true) (hp : h.jsonParse data = some parsed)
    (hv : priceOf (candidate parsed) = v) (hnn : v.isNullish = false) :
    onmessage h data now sys =
      (Number h v).map (fun n =>
        { sys with
          lastMessageAt := now
          state := { sys.state with
            price := some n
            dt := if !(dtOf (candidate parsed)).isNullish then dtOf (candidate parsed)
              else sys.state.dt
            error := none } }) := by
  simp only [onmessage, halive, hp, hv, hnn, messageUpdate]
  cases Number h v with
  | error e => simp [Except.map]
  | ok n => simp [Except.map]

/-- The handler on a frame that carries a timestamp `t` and no price. -/
theorem onmessage_dt_only (h : Host) (data : String) (now : Nat) (sys : Hook) (parsed t : JSVal)
    (halive : sys.alive = true) (hp : h.jsonParse data = some parsed)
    (hv : priceOf (candidate parsed) = .null)
    (ht : dtOf (candidate parsed) = t) (hnn : t.isNullish = false) :
    onmessage h data now sys =
      .ok { sys with
        lastMessageAt := now
        state := { sys.state with dt := t, error := none } } := by
  simp [onmessage, halive, hp, hv, ht, hnn, messageUpdate, isNullish_null]

theorem number_abc (h : Host) : Number h (.str "abc") = .ok .nan := by rfl

theorem number_empty_object (h : Host) : Number h (.obj []) = .ok .nan := by rfl

theorem number_sample_price (h : Host) :
    Number h (.str "1.0850") = .ok (.fin (1221601398924247 / 1125899906842624)) := by
  have hr : Number h (.str "1.0850") =
      .ok (.fin (((4886405595696988 : ℕ) : ℚ) * (2 : ℚ) ^ (-52 : Int))) := by rfl
  rw [hr]
  norm_num

/-- After the cleanup of any hook, every sequence of events runs without
raising, keeps the feed state, the sockets and the frames sent, and adds no
timer. -/
theorem run_after_cleanup (h : Host) (sys : Hook) (evs : List Event) :
    ∃ sys1, run h (cleanup sys) evs = .ok sys1 ∧ sys1.alive = false ∧
      sys1.state = sys.state ∧ sys1.sockets = sys.sockets ∧ sys1.sent = sys.sent ∧
      sys1.timers <:+ sys.timers := by
  obtain ⟨sys1, hr, hd, h1, h2, h3, _, h5⟩ := run_dead h evs (cleanup sys) rfl
  exact ⟨sys1, hr, hd, h1, h2, h3, h5⟩

theorem number_object (h : Host) (kvs : List (String × JSVal))
    (hts : lookupLast "toString" kvs = none) : Number h (.obj kvs) = .ok .nan := by
  have ht : toStringJS h (.obj kvs) = .ok "[object Object]" := by
    simp [toStringJS, hts]
  have hn : StringToNumber "[object Object]" = .nan := by rfl
  simp [Number, ht, hn]

/-- The coercion `Number(v)` raises only on arrays and objects. -/
theorem number_primitive (h : Host) (v : JSVal) (ho : ∀ kvs, v ≠ .obj kvs)
    (ha : ∀ xs, v ≠ .arr xs) : ∃ n, Number h v = .ok n := by
  cases v with
  | undefined => exact ⟨_, rfl⟩
  | null => exact ⟨_, rfl⟩
  | bool b => exact ⟨_, rfl⟩
  | num n => exact ⟨_, rfl⟩
  | str t => exact ⟨_, rfl⟩
  | arr xs => exact absurd rfl (ha xs)
  | obj kvs => exact absurd rfl (ho kvs)

/-! ## Lemmas on the rendering of digits -/

theorem digitValue_digitChar (d : Nat) (hd : d < 10) :
    digitValue 10 (Nat.digitChar d) = some d := by
  interval_cases d <;> rfl

theorem isDigit_digitChar (d : Nat) (hd : d < 10) : (Nat.digitChar d).isDigit = true := by
  interval_cases d <;> rfl

theorem readDigits_append (b : Nat) (xs ys : List Char) : ∀ acc : Nat,
    readDigits b acc (xs ++ ys) = (readDigits b acc xs).bind (fun a => readDigits b a ys) := by
  induction xs with
  | nil => intro acc; rfl
  | cons c cs ih =>
    intro acc
    simp only [List.cons_append, readDigits]
    cases digitValue b c with
    | none => rfl
    | some v => exact ih _

theorem readDigits_zeros (j : Nat) (m : List Char) :
    readDigits 10 0 (List.replicate j '0' ++ m) = readDigits 10 0 m := by
  induction j with
  | zero => rfl
  | succ j ih =>
    have hz : digitValue 10 '0' = some 0 := by rfl
    simp only [List.replicate_succ, List.cons_append, readDigits, hz]
    exact ih

/-- The digits that `Nat.toDigitsCore` puts in front of its accumulator are
decimal digits and read back as the number. -/
theorem toDigitsCore_spec : ∀ (fuel n : Nat) (ds : List Char), n < fuel →
    ∃ xs : List Char, Nat.toDigitsCore 10 fuel n ds = xs ++ ds ∧ xs ≠ [] ∧
      (∀ c ∈ xs, c.isDigit = true) ∧
      ∀ acc : Nat, readDigits 10 acc xs = some (acc * 10 ^ xs.length + n) := by
  intro fuel
  induction fuel with
  | zero => intro n ds hn; omega
  | succ fuel ih =>
    intro n ds hn
    have hmod : n % 10 < 10 := Nat.mod_lt _ (by norm_num)
    by_cases hq : n / 10 = 0
    · refine ⟨[Nat.digitChar (n % 10)], ?_, by simp, ?_, ?_⟩
      · simp [Nat.toDigitsCore, hq]
      · intro c hc
        simp only [List.mem_singleton] at hc
        subst hc
        exact isDigit_digitChar _ hmod
      · intro acc
        have hn10 : n % 10 = n := by omega
        have hlt10 : n < 10 := by omega
        simp [readDigits, digitValue_digitChar n hlt10, hn10]
    · have hlt : n / 10 < fuel := by omega
      obtain ⟨xs, hx, _, hdig, hval⟩ := ih (n / 10) (Nat.digitChar (n % 10) :: ds) hlt
      refine ⟨xs ++ [Nat.digitChar (n % 10)], ?_, by simp, ?_, ?_⟩
      · simp [Nat.toDigitsCore, hq, hx]
      · intro c hc
        rcases List.mem_append.mp hc with hc | hc
        · exact hdig c hc
        · simp only [List.mem_singleton] at hc
          subst hc
          exact isDigit_digitChar _ hmod
      · intro acc
        rw [readDigits_append, hval acc]
        simp only [Option.bind, readDigits, digitValue_digitChar _ hmod, List.length_append,
          List.length_singleton, Option.some.injEq]
        have := Nat.div_add_mod n 10
        rw [pow_succ]
        nlinarith [this]

/-- The digit string that `toFixed` starts from. -/
theorem digits_spec (n : Nat) :
    (if n = 0 then ['0'] else Nat.toDigits 10 n) ≠ [] ∧
    (∀ c ∈ (if n = 0 then ['0'] else Nat.toDigits 10 n), c.isDigit = true) ∧
    readDigits 10 0 (if n = 0 then ['0'] else Nat.toDigits 10 n) = some n := by
  by_cases hn : n = 0
  · subst hn
    refine ⟨by simp, ?_, by rfl⟩
    intro c hc
    simp only [if_true, List.mem_singleton] at hc
    subst hc
    rfl
  · obtain ⟨xs, hx, hne, hdig, hval⟩ := toDigitsCore_spec (n + 1) n [] (Nat.lt_succ_self n)
    have ht : Nat.toDigits 10 n = xs := by
      simp [Nat.toDigits, hx]
    simp only [hn, if_false, ht]
    exact ⟨hne, hdig, by simpa using hval 0⟩

theorem roundHalfUp_spec (x : ℚ) (hx : 0 ≤ x) :
    x - 1 / 2 < (roundHalfUp x : ℚ) ∧ (roundHalfUp x : ℚ) ≤ x + 1 / 2 := by
  have h0 : 0 ≤ Int.floor (x + 1 / 2) := Int.floor_nonneg.mpr (by linarith)
  have hc : ((roundHalfUp x : ℕ) : ℚ) = ((Int.floor (x + 1 / 2) : ℤ) : ℚ) := by
    unfold roundHalfUp
    have : ((Int.floor (x + 1 / 2)).toNat : ℤ) = Int.floor (x + 1 / 2) := Int.toNat_of_nonneg h0
    exact_mod_cast this
  have h1 := Int.floor_le (x + 1 / 2)
  have h2 := Int.lt_floor_add_one (x + 1 / 2)
  rw [hc]
  constructor <;> linarith

/-- The shape of `toFixed(5)` on a finite number below `10^21` in magnitude:
an optional minus sign, at least one digit, the point, five digits; read as a
whole number the digits are `|q| * 10^5` rounded to the nearest integer, the
larger one at a tie. -/
theorem toFixedChars_small (h : Host) (q : ℚ) (hq : |q| < (10 : ℚ) ^ 21) :
    ∃ (n : Nat) (a b : List Char),
      toFixedChars h (.fin q) 5 = (if q < 0 then ['-'] else []) ++ (a ++ '.' :: b) ∧
      a ≠ [] ∧ b.length = 5 ∧ (∀ c ∈ a ++ b, c.isDigit = true) ∧
      readNat 10 (a ++ b) = some n ∧
      |q| * (10 : ℚ) ^ 5 - 1 / 2 < (n : ℚ) ∧ (n : ℚ) ≤ |q| * (10 : ℚ) ^ 5 + 1 / 2 := by
  have hx : (if q < 0 then -q else q) = |q| := by
    split
    · rename_i hneg; exact (abs_of_neg hneg).symm
    · rename_i hnn; exact (abs_of_nonneg (not_lt.mp hnn)).symm
  obtain ⟨hne, hdig, hval⟩ := digits_spec (roundHalfUp (|q| * (10 : ℚ) ^ 5))
  obtain ⟨hr1, hr2⟩ := roundHalfUp_spec (|q| * (10 : ℚ) ^ 5)
    (mul_nonneg (abs_nonneg q) (by positivity))
  generalize hm : (if roundHalfUp (|q| * (10 : ℚ) ^ 5) = 0 then ['0']
    else Nat.toDigits 10 (roundHalfUp (|q| * (10 : ℚ) ^ 5))) = m at hne hdig hval
  have hunfold : toFixedChars h (.fin q) 5 = (if q < 0 then ['-'] else []) ++
      ((if m.length ≤ 5 then List.replicate (5 + 1 - m.length) '0' ++ m else m).take
          ((if m.length ≤ 5 then 5 + 1 else m.length) - 5) ++
        '.' :: (if m.length ≤ 5 then List.replicate (5 + 1 - m.length) '0' ++ m else m).drop
          ((if m.length ≤ 5 then 5 + 1 else m.length) - 5)) := by
    have hlt1 : ¬ (10 : ℚ) ^ 21 ≤ |q| := not_le.mpr hq
    simp only [toFixedChars, hx, if_neg hlt1, hm]
    simp
  refine ⟨roundHalfUp (|q| * (10 : ℚ) ^ 5), _, _, hunfold, ?_, ?_, ?_, ?_, hr1, hr2⟩
  · by_cases hk : m.length ≤ 5
    · simp only [hk, if_true]
      intro hcon
      have := congrArg List.length hcon
      simp at this
      omega
    · simp only [hk, if_false]
      intro hcon
      have := congrArg List.length hcon
      simp at this
      omega
  · by_cases hk : m.length ≤ 5
    · simp only [hk, if_true, List.length_drop, List.length_append, List.length_replicate]
      omega
    · simp only [hk, if_false, List.length_drop]
      omega
  · rw [List.take_append_drop]
    intro c hc
    by_cases hk : m.length ≤ 5
    · simp only [hk, if_true] at hc
      rcases List.mem_append.mp hc with hc | hc
      · rw [(List.mem_replicate.mp hc).2]; rfl
      · exact hdig c hc
    · simp only [hk, if_false] at hc
      exact hdig c hc
  · rw [List.take_append_drop]
    have hmne : (if m.length ≤ 5 then List.replicate (5 + 1 - m.length) '0' ++ m else m) ≠ [] := by
      split
      · simp [hne]
      · exact hne
    have hrd : readDigits 10 0
        (if m.length ≤ 5 then List.replicate (5 + 1 - m.length) '0' ++ m else m) =
        some (roundHalfUp (|q| * (10 : ℚ) ^ 5)) := by
      split
      · rw [readDigits_zeros]; exact hval
      · exact hval
    generalize (if m.length ≤ 5 then List.replicate (5 + 1 - m.length) '0' ++ m else m) = m1
      at hmne hrd
    cases m1 with
    | nil => exact absurd rfl hmne
    | cons c cs => exact hrd

theorem toFixed_sample (h : Host) :
    toFixed h (.fin (123456789 / 100000000)) 5 = "1.23457" := by
  have hr : roundHalfUp ((123456789 / 100000000 : ℚ) * (10 : ℚ) ^ 5) = 123457 := by
    unfold roundHalfUp
    have hf : Int.floor ((123456789 / 100000000 : ℚ) * (10 : ℚ) ^ 5 + 1 / 2) = 123457 := by
      rw [Int.floor_eq_iff]
      constructor <;> norm_num
    rw [hf]
    rfl
  have hneg : ¬ ((123456789 / 100000000 : ℚ) < 0) := by norm_num
  have hbig : ¬ ((10 : ℚ) ^ 21 ≤ (123456789 / 100000000 : ℚ)) := by norm_num
  simp only [toFixed, toFixedChars, if_neg hneg, if_neg hbig, hr]
  rfl

/-! ## The claims -/

/-- C1 fails as stated: the frame `{"price":{"toString":1}}` is valid JSON, a
raw object with a non-null `price`, but `Number` of that value raises
`TypeError` (the own property `toString` is not callable), so the updater
raises and there is no state after the handler. -/
theorem C1_counterexample :
    sampleHost.jsonParse "\x7b\"price\":\x7b\"toString\":1\x7d\x7d" =
      some (.obj [("price", .obj [("toString", .num (.fin 1))])]) ∧
    ((JSVal.obj [("price", .obj [("toString", .num (.fin 1))])]).get "price").isNullish
      = false ∧
    Number sampleHost (.obj [("toString", .num (.fin 1))]) = .error .typeError ∧
    onmessage sampleHost "\x7b\"price\":\x7b\"toString\":1\x7d\x7d" 1
      (onopen 0 (connect Hook.init)) = .error .typeError :=
  ⟨rfl, rfl, rfl, rfl⟩

/-- C1 as amended: on a running hook, for a frame that parses to one of the
three shapes (a list whose first element is the object `o`, an envelope whose
`data` is a list whose first element is `o`, or the raw object `o` itself) and
whose object carries the non-null price `v` (`price`, or `Price` when `price`
is null), whenever `Number(v)` returns a number `n` the handler returns a
state whose price is `n`. `Number(v)` returns for every `v` that is not an
array or object (a string, number or boolean), and for every object without
an own `toString` property, where it is `NaN`. The sample frame with `Price`
`"1.0850"` and `DT` `1700000000000` gives as price the binary64 value of
`1.0850`, which is `1221601398924247 / 2^50` and lies within `2^-52` of
`1.085`, that timestamp and no error. -/
theorem C1_price_is_Number_of_value (h : Host) (sys : Hook) (data : String) (now : Nat)
    (parsed o v : JSVal) (halive : sys.alive = true) (hp : h.jsonParse data = some parsed)
    (hshape : (∃ rest, parsed = .arr (o :: rest)) ∨
      (∃ kvs rest, parsed = .obj kvs ∧ lookupLast "data" kvs = some (.arr (o :: rest))) ∨
      (∃ kvs, parsed = .obj kvs ∧ o = parsed ∧ ∀ xs, lookupLast "data" kvs ≠ some (.arr xs)))
    (hv : ((o.get "price").isNullish = false ∧ v = o.get "price") ∨
      ((o.get "price").isNullish = true ∧ (o.get "Price").isNullish = false ∧
        v = o.get "Price")) :
    (∀ n : JSNumber, Number h v = .ok n →
      ∃ sys1, onmessage h data now sys = .ok sys1 ∧ sys1.state.price = some n) ∧
    ((∀ kvs, v ≠ .obj kvs) → (∀ xs, v ≠ .arr xs) → ∃ n, Number h v = .ok n) ∧
    (∀ kvs, v = .obj kvs → lookupLast "toString" kvs = none → Number h v = .ok .nan) ∧
    (h.jsonParse data = some (.obj [("data", .arr [.obj [("Price", .str "1.0850"),
        ("DT", .num (.fin 1700000000000))]])]) →
      onmessage h data now sys =
        .ok { sys with
          lastMessageAt := now
          state := { connected := sys.state.connected, error := none,
                     price := some (.fin (1221601398924247 / 1125899906842624)),
                     dt := .num (.fin 1700000000000),
                     rawTopic := sys.state.rawTopic } }) ∧
    |(1221601398924247 / 1125899906842624 : ℚ) - 217 / 200| < 1 / 2 ^ 52 := by
  have hc : candidate parsed = o := by
    rcases hshape with ⟨rest, rfl⟩ | ⟨kvs, rest, rfl, hd⟩ | ⟨kvs, rfl, rfl, hd⟩
    · exact candidate_arr o rest
    · exact candidate_envelope kvs o rest hd
    · exact candidate_raw kvs hd
  obtain ⟨hpv, hnn⟩ := priceOf_of_value o v hv
  have hm := onmessage_price h data now sys parsed v halive hp (by rw [hc]; exact hpv) hnn
  refine ⟨?_, number_primitive h v, ?_, ?_, ?_⟩
  · intro n hn
    rw [hm, hn]
    exact ⟨_, rfl, rfl⟩
  · intro kvs hk hts
    subst hk
    exact number_object h kvs hts
  · intro hs
    rw [onmessage_price h data now sys _ (.str "1.0850") halive hs (by rfl) (by rfl),
      number_sample_price]
    rfl
  · rw [abs_lt]
    constructor <;> norm_num

/-- C1 as amended, at the sample frame on the initial hook. -/
theorem C1_witness :
    (∃ sys1, onmessage sampleHost
        "\x7b\"data\":[\x7b\"Price\": \"1.0850\", \"DT\": 1700000000000\x7d]\x7d" 7
        Hook.init = .ok sys1 ∧
      sys1.state.price = some (.fin (1221601398924247 / 1125899906842624))) ∧
    onmessage sampleHost
        "\x7b\"data\":[\x7b\"Price\": \"1.0850\", \"DT\": 1700000000000\x7d]\x7d" 7 Hook.init
      = .ok { Hook.init with
          lastMessageAt := 7
          state := { connected := false, error := none,
                     price := some (.fin (1221601398924247 / 1125899906842624)),
                     dt := .num (.fin 1700000000000),
                     rawTopic := "EURUSD:CUR" } } := by
  have hw := C1_price_is_Number_of_value sampleHost Hook.init
    "\x7b\"data\":[\x7b\"Price\": \"1.0850\", \"DT\": 1700000000000\x7d]\x7d" 7
    (.obj [("data", .arr [.obj [("Price", .str "1.0850"),
      ("DT", .num (.fin 1700000000000))]])])
    (.obj [("Price", .str "1.0850"), ("DT", .num (.fin 1700000000000))])
    (.str "1.0850") rfl rfl (Or.inr (Or.inl ⟨_, [], rfl, rfl⟩))
    (Or.inr ⟨rfl, rfl, rfl⟩)
  exact ⟨hw.1 _ (number_sample_price sampleHost), hw.2.2.2.1 rfl⟩

/-- C2: on a running hook, a frame whose object carries a non-null timestamp
`t` (the first non-null of `dt`, `DT`, `date`) and no non-null price stores
exactly `t` and keeps the price; a frame whose object carries a non-null price
`v` and no non-null timestamp stores `Number(v)` as the price and keeps the
timestamp. In both cases `connected` and `rawTopic` are as before. -/
theorem C2_fields_update_independently (h : Host) (sys : Hook) (data : String) (now : Nat)
    (parsed : JSVal) (halive : sys.alive = true) (hp : h.jsonParse data = some parsed) :
    (∀ t : JSVal,
      ((candidate parsed).get "price").isNullish = true →
      ((candidate parsed).get "Price").isNullish = true →
      ((((candidate parsed).get "dt").isNullish = false ∧ t = (candidate parsed).get "dt") ∨
        (((candidate parsed).get "dt").isNullish = true ∧
          ((candidate parsed).get "DT").isNullish = false ∧ t = (candidate parsed).get "DT") ∨
        (((candidate parsed).get "dt").isNullish = true ∧
          ((candidate parsed).get "DT").isNullish = true ∧
          ((candidate parsed).get "date").isNullish = false ∧
          t = (candidate parsed).get "date")) →
      onmessage h data now sys =
        .ok { sys with
          lastMessageAt := now
          state := { connected := sys.state.connected, error := none,
                     price := sys.state.price, dt := t, rawTopic := sys.state.rawTopic } }) ∧
    (∀ v : JSVal,
      ((candidate parsed).get "dt").isNullish = true →
      ((candidate parsed).get "DT").isNullish = true →
      ((candidate parsed).get "date").isNullish = true →
      ((((candidate parsed).get "price").isNullish = false ∧
          v = (candidate parsed).get "price") ∨
        (((candidate parsed).get "price").isNullish = true ∧
          ((candidate parsed).get "Price").isNullish = false ∧
          v = (candidate parsed).get "Price")) →
      onmessage h data now sys =
        (Number h v).map (fun n =>
          { sys with
            lastMessageAt := now
            state := { connected := sys.state.connected, error := none,
                       price := some n, dt := sys.state.dt,
                       rawTopic := sys.state.rawTopic } })) := by
  constructor
  · intro t h1 h2 ht
    obtain ⟨hdt, hnn⟩ := dtOf_of_value _ t ht
    exact onmessage_dt_only h data now sys parsed t halive hp (priceOf_absent _ h1 h2) hdt hnn
  · intro v h1 h2 h3 hv
    obtain ⟨hpv, hnn⟩ := priceOf_of_value _ v hv
    rw [onmessage_price h data now sys parsed v halive hp hpv hnn,
      dtOf_absent _ h1 h2 h3]
    simp [isNullish_null]

/-- C2 at the sample frames with only `dt` and with only `price`. -/
theorem C2_witness :
    onmessage sampleHost "\x7b\"dt\":1700000000000\x7d" 3 Hook.init =
      .ok { Hook.init with
        lastMessageAt := 3
        state := { connected := false, error := none, price := none,
                   dt := .num (.fin 1700000000000), rawTopic := "EURUSD:CUR" } } ∧
    onmessage sampleHost "\x7b\"price\":1.2\x7d" 4 Hook.init =
      (Number sampleHost (.num (.fin (6 / 5)))).map (fun n =>
        { Hook.init with
          lastMessageAt := 4
          state := { connected := false, error := none, price := some n,
                     dt := .null, rawTopic := "EURUSD:CUR" } }) :=
  ⟨(C2_fields_update_independently sampleHost Hook.init "\x7b\"dt\":1700000000000\x7d" 3
      (.obj [("dt", .num (.fin 1700000000000))]) rfl rfl).1
      (.num (.fin 1700000000000)) rfl rfl (Or.inl ⟨rfl, rfl⟩),
   (C2_fields_update_independently sampleHost Hook.init "\x7b\"price\":1.2\x7d" 4
      (.obj [("price", .num (.fin (6 / 5)))]) rfl rfl).2
      (.num (.fin (6 / 5))) rfl rfl rfl (Or.inl ⟨rfl, rfl⟩)⟩

/-- C3: a frame that is ignored leaves the whole feed state as it is and
raises nothing, whatever the state. Ignored are the frames whose text
`JSON.parse` rejects and the frames whose candidate object has no non-null
`price`, `Price`, `dt`, `DT` or `date`; among the latter are the empty list,
an envelope whose `data` is the empty list, and `null`, booleans, numbers and
strings. -/
theorem C3_ignored_frame_changes_nothing (h : Host) (sys : Hook) (data : String) (now : Nat)
    (hign : h.jsonParse data = none ∨ ∃ parsed, h.jsonParse data = some parsed ∧
      ∀ k ∈ ["price", "Price", "dt", "DT", "date"],
        ((candidate parsed).get k).isNullish = true) :
    (∃ sys1, onmessage h data now sys = .ok sys1 ∧ sys1.state = sys.state) ∧
    (∀ parsed : JSVal,
      (parsed = .arr [] ∨
        (∃ kvs, parsed = .obj kvs ∧ lookupLast "data" kvs = some (.arr [])) ∨
        parsed = .null ∨ (∃ b, parsed = .bool b) ∨ (∃ n, parsed = .num n) ∨
        (∃ s, parsed = .str s)) →
      ∀ k ∈ ["price", "Price", "dt", "DT", "date"],
        ((candidate parsed).get k).isNullish = true) := by
  constructor
  · refine ⟨_, onmessage_ignored h data now sys ?_, rfl⟩
    rcases hign with hn | ⟨parsed, hp, hk⟩
    · exact Or.inl hn
    · refine Or.inr ⟨parsed, hp, ?_, ?_⟩
      · rw [priceOf_isNullish, hk "price" (by simp), hk "Price" (by simp)]; rfl
      · rw [dtOf_isNullish, hk "dt" (by simp), hk "DT" (by simp), hk "date" (by simp)]; rfl
  · intro parsed hs k _
    rcases hs with rfl | ⟨kvs, rfl, hd⟩ | rfl | ⟨b, rfl⟩ | ⟨n, rfl⟩ | ⟨s, rfl⟩
    · rfl
    · have hc : candidate (.obj kvs) = .undefined := by
        simp [candidate, JSVal.isArray, JSVal.index0, JSVal.get, JSVal.truthy, hd]
      rw [hc]; rfl
    · rfl
    · rfl
    · rfl
    · rfl

/-- C3 at a malformed frame, on a hook whose state holds an error. -/
theorem C3_witness :
    ∃ sys1, onmessage sampleHost "not json" 5 (onerror (connect Hook.init)) = .ok sys1 ∧
      sys1.state = (onerror (connect Hook.init)).state :=
  (C3_ignored_frame_changes_nothing sampleHost (onerror (connect Hook.init)) "not json" 5
    (Or.inl rfl)).1

/-- C4 fails as stated: after the frame with price `1.2` the stored price is
`1.2`, and the next frame, whose price is the string `"abc"`, replaces it by
`NaN`. -/
theorem C4_counterexample :
    ∃ sys0 sys1,
      run sampleHost Hook.init
        [.connect, .wsOpen 0, .wsMessage 0 "\x7b\"price\":1.2\x7d" 1] = .ok sys0 ∧
      sys0.state.price = some (.fin (6 / 5)) ∧
      onmessage sampleHost "\x7b\"price\":\"abc\"\x7d" 2 sys0 = .ok sys1 ∧
      sys1.state.price = some .nan :=
  ⟨_, _, rfl, rfl, rfl, rfl⟩

/-- C4 as amended: on a running hook, a frame whose object has no non-null
`price` or `Price` leaves the stored price as it is; a frame that carries a
non-null price `v` stores `Number(v)` whatever it is, and for the string
`"abc"` and for an empty nested object that is `NaN`, so the stored price
becomes `NaN`; `priceText` shows such a price as the placeholder. -/
theorem C4_absent_price_kept_present_price_stored (h : Host) (sys : Hook) (data : String)
    (now : Nat) (parsed : JSVal) (halive : sys.alive = true)
    (hp : h.jsonParse data = some parsed) :
    (((candidate parsed).get "price").isNullish = true →
      ((candidate parsed).get "Price").isNullish = true →
      ∃ sys1, onmessage h data now sys = .ok sys1 ∧ sys1.state.price = sys.state.price) ∧
    (∀ v : JSVal,
      ((((candidate parsed).get "price").isNullish = false ∧
          v = (candidate parsed).get "price") ∨
        (((candidate parsed).get "price").isNullish = true ∧
          ((candidate parsed).get "Price").isNullish = false ∧
          v = (candidate parsed).get "Price")) →
      (onmessage h data now sys).map (fun s => s.state.price) = (Number h v).map some ∧
      (Number h v = .ok .nan →
        ∃ sys1, onmessage h data now sys = .ok sys1 ∧ sys1.state.price = some .nan)) ∧
    Number h (.str "abc") = .ok .nan ∧
    Number h (.obj []) = .ok .nan ∧
    priceText h (some .nan) = "—" := by
  refine ⟨?_, ?_, number_abc h, number_empty_object h, rfl⟩
  · intro h1 h2
    have hpn := priceOf_absent _ h1 h2
    cases hd : (dtOf (candidate parsed)).isNullish with
    | true =>
      refine ⟨_, onmessage_ignored h data now sys (Or.inr ⟨parsed, hp, ?_, hd⟩), rfl⟩
      rw [hpn]; rfl
    | false =>
      exact ⟨_, onmessage_dt_only h data now sys parsed _ halive hp hpn rfl hd, rfl⟩
  · intro v hv
    obtain ⟨hpv, hnn⟩ := priceOf_of_value _ v hv
    rw [onmessage_price h data now sys parsed v halive hp hpv hnn]
    constructor
    · cases Number h v with
      | error e => rfl
      | ok n => rfl
    · intro hn
      rw [hn]
      exact ⟨_, rfl, rfl⟩

/-- C4 as amended, at the frame whose price is `"abc"`. -/
theorem C4_witness :
    ∃ sys1, onmessage sampleHost "\x7b\"price\":\"abc\"\x7d" 2 Hook.init = .ok sys1 ∧
      sys1.state.price = some .nan :=
  ((C4_absent_price_kept_present_price_stored sampleHost Hook.init
      "\x7b\"price\":\"abc\"\x7d" 2 (.obj [("price", .str "abc")]) rfl rfl).2.1
    (.str "abc") (Or.inl ⟨rfl, rfl⟩)).2 rfl

/-- C5: in every state reached from the initial hook by any sequence of
events, a set error and `connected` do not hold together, and a message that
changes the state leaves the error `null`. -/
theorem C5_error_excludes_connected (h : Host) (evs : List Event) (sys : Hook)
    (hr : run h Hook.init evs = .ok sys) :
    (sys.state.error ≠ none → sys.state.connected = false) ∧
    (∀ (ws : Nat) (data : String) (now : Nat) (sys1 : Hook),
      step h sys (.wsMessage ws data now) = .ok sys1 →
      sys1.state ≠ sys.state → sys1.state.error = none) := by
  constructor
  · exact run_invariant h evs Hook.init sys (fun hne => absurd rfl hne) hr
  · intro ws data now sys1 hs hne
    rcases onmessage_ok h data now sys sys1 hs with he | ⟨he, _, _⟩
    · exact absurd he hne
    · exact he

/-- C5 after connect, open, error. -/
theorem C5_witness :
    (onerror (onopen 0 (connect Hook.init))).state.error = some errorAdvice ∧
    (onerror (onopen 0 (connect Hook.init))).state.connected = false :=
  ⟨rfl, (C5_error_excludes_connected sampleHost [.connect, .wsOpen 0, .wsError 0]
    (onerror (onopen 0 (connect Hook.init))) rfl).1 (fun hc => Option.noConfusion hc)⟩

/-- C6: once the cleanup (`stop`) has run, every later sequence of events
(open, close, error, message, a retry timer firing, a further `connect` or
`stop`) runs without raising and leaves the feed state as it was; no socket
is created, no frame is sent and no timer is added: the pending timers can
only be used up. -/
theorem C6_nothing_changes_after_stop (h : Host) (sys : Hook) (evs : List Event) :
    ∃ sys1, run h (cleanup sys) evs = .ok sys1 ∧ sys1.alive = false ∧
      sys1.state = sys.state ∧ sys1.sockets = sys.sockets ∧ sys1.sent = sys.sent ∧
      sys1.timers <:+ sys.timers := by
  exact run_after_cleanup h sys evs

/-- C8: on a running hook an error event of a socket yields `connected` false
and the fixed advisory text as error, with price, timestamp and topic as they
were; the badge then reads `Error`, and it does so for every state with that
error, connected or not. -/
theorem C8_error_event (h : Host) (sys : Hook) (ws : Nat) (halive : sys.alive = true) :
    step h sys (.wsError ws) = .ok (onerror sys) ∧
    (onerror sys).state.connected = false ∧
    (onerror sys).state.error = some
      "WebSocket error (some browsers block ws:// on local files). Try running via a local server." ∧
    (onerror sys).state.price = sys.state.price ∧
    (onerror sys).state.dt = sys.state.dt ∧
    (onerror sys).state.rawTopic = sys.state.rawTopic ∧
    badge (onerror sys).state = "Error" ∧
    (∀ s : FeedState, s.error = some errorAdvice → badge s = "Error") := by
  have hb : ∀ s : FeedState, s.error = some errorAdvice → badge s = "Error" := by
    intro s he
    have : errorTruthy s.error = true := by rw [he]; decide
    simp [badge, this]
  have ho : (onerror sys).state =
      { sys.state with connected := false, error := some errorAdvice } := by
    simp [onerror, halive]
  refine ⟨rfl, ?_, ?_, ?_, ?_, ?_, hb _ ?_, hb⟩
  all_goals (rw [ho]; first | done | rfl)

/-- C8 on the hook after connect and open. -/
theorem C8_witness :
    (onerror (onopen 0 (connect Hook.init))).state.connected = false ∧
    badge (onerror (onopen 0 (connect Hook.init))).state = "Error" :=
  ⟨(C8_error_event sampleHost (onopen 0 (connect Hook.init)) 0 rfl).2.1,
   (C8_error_event sampleHost (onopen 0 (connect Hook.init)) 0 rfl).2.2.2.2.2.2.1⟩

/-- C7 fails as stated: after connect, open, close and then `stop`, the retry
timer of 1200 ms is still pending; the cleanup does not cancel it. -/
theorem C7_counterexample :
    ∃ sys1, run sampleHost Hook.init [.connect, .wsOpen 0, .wsClose 0, .stop] = .ok sys1 ∧
      sys1.alive = false ∧ sys1.timers = [1200] :=
  ⟨_, rfl, rfl, rfl⟩

/-- C7 as amended: on a running hook, open followed by close schedules exactly
one retry, of 1200 ms, and creates no socket; an error event schedules
nothing, so error and close together, in either order, schedule exactly one
retry. A `stop` before the retry fires does not remove the timer, but
whatever happens afterwards, the firing of that timer included, creates no
socket, changes no state and schedules nothing further. -/
theorem C7_one_retry_per_close (h : Host) (sys : Hook) (ws : Nat)
    (halive : sys.alive = true) :
    (∃ sys1, run h sys [.wsOpen ws, .wsClose ws] = .ok sys1 ∧
      sys1.timers = sys.timers ++ [1200] ∧ sys1.sockets = sys.sockets) ∧
    (∃ sys1, step h sys (.wsError ws) = .ok sys1 ∧
      sys1.timers = sys.timers ∧ sys1.sockets = sys.sockets) ∧
    (∃ sys1, run h sys [.wsError ws, .wsClose ws] = .ok sys1 ∧
      sys1.timers = sys.timers ++ [1200] ∧ sys1.sockets = sys.sockets) ∧
    (∃ sys1, run h sys [.wsClose ws, .wsError ws] = .ok sys1 ∧
      sys1.timers = sys.timers ++ [1200] ∧ sys1.sockets = sys.sockets) ∧
    (cleanup (onclose (onopen ws sys))).timers = sys.timers ++ [1200] ∧
    (∀ evs : List Event, ∃ sys2,
      run h (cleanup (onclose (onopen ws sys))) evs = .ok sys2 ∧
      sys2.state = (onclose (onopen ws sys)).state ∧
      sys2.sockets = sys.sockets ∧
      sys2.timers <:+ sys.timers ++ [1200]) := by
  have h1 : (onclose (onopen ws sys)).timers = sys.timers ++ [1200] := by
    simp [onclose, onopen, halive]
  have h2 : (onclose (onopen ws sys)).sockets = sys.sockets := by
    simp [onclose, onopen, halive]
  refine ⟨⟨_, rfl, h1, h2⟩, ⟨_, rfl, ?_, ?_⟩, ⟨_, rfl, ?_, ?_⟩, ⟨_, rfl, ?_, ?_⟩, ?_, ?_⟩
  · simp [onerror, halive]
  · simp [onerror, halive]
  · simp [onclose, onerror, halive]
  · simp [onclose, onerror, halive]
  · simp [onclose, onerror, halive]
  · simp [onclose, onerror, halive]
  · simp [cleanup, h1]
  · intro evs
    obtain ⟨sys2, hr, _, g1, g2, _, g5⟩ := run_after_cleanup h (onclose (onopen ws sys)) evs
    exact ⟨sys2, hr, g1, g2.trans h2, h1 ▸ g5⟩

/-- C7 as amended, on the hook after connect. -/
theorem C7_witness :
    ∃ sys1, run sampleHost (connect Hook.init) [.wsOpen 0, .wsClose 0] = .ok sys1 ∧
      sys1.timers = (connect Hook.init).timers ++ [1200] ∧
      sys1.sockets = (connect Hook.init).sockets :=
  (C7_one_retry_per_close sampleHost (connect Hook.init) 0 rfl).1

/-- C10 fails as stated: after connect and open the state is connected, and
it still is after `stop`, called once or twice. -/
theorem C10_counterexample :
    ∃ sys1, run sampleHost Hook.init [.connect, .wsOpen 0, .stop, .stop] = .ok sys1 ∧
      sys1.alive = false ∧ sys1.state.connected = true :=
  ⟨_, rfl, rfl, rfl⟩

/-- C10 as amended: from every state, `stop` twice gives the same hook as
`stop` once; the end state is not running, its feed state is the one held
when `stop` was called (`connected` is not reset), and no later sequence of
events changes it. -/
theorem C10_stop_idempotent (sys : Hook) :
    cleanup (cleanup sys) = cleanup sys ∧
    (cleanup sys).alive = false ∧
    (cleanup sys).state = sys.state ∧
    (∀ (h : Host) (evs : List Event), ∃ sys1,
      run h (cleanup sys) evs = .ok sys1 ∧ sys1.alive = false ∧ sys1.state = sys.state) := by
  refine ⟨cleanup_cleanup sys, rfl, rfl, ?_⟩
  intro h evs
  obtain ⟨sys1, hr, hd, h1, _⟩ := run_after_cleanup h sys evs
  exact ⟨sys1, hr, hd, h1⟩

/-- C9 fails as stated: the frame whose price is the string `"Infinity"`
stores the number `Infinity`, which is neither absent nor `NaN`, and
`priceText` renders it as `Infinity`, without a decimal point. -/
theorem C9_counterexample :
    ∃ sys1,
      run sampleHost Hook.init
        [.connect, .wsOpen 0, .wsMessage 0 "\x7b\"price\":\"Infinity\"\x7d" 1] = .ok sys1 ∧
      sys1.state.price = some .posInf ∧
      priceText sampleHost sys1.state.price = "Infinity" ∧
      '.' ∉ (priceText sampleHost sys1.state.price).toList :=
  ⟨_, rfl, rfl, rfl, by decide⟩

/-- C9 as amended: given that the engine never renders a number as the dash,
`priceText` is the placeholder exactly when the price is absent or `NaN`; for
a finite price of magnitude below `10^21` it is an optional minus sign, at
least one digit, the point and exactly five digits, the digits being the
magnitude times `10^5` rounded to the nearest integer (the larger one at a
tie); for a finite price of magnitude `10^21` or more it is the optional
minus sign followed by the engine's rendering of the magnitude; for the
infinities it is `Infinity` and `-Infinity`. The price
`1.23456789` gives `1.23457`, `null` and `NaN` give the placeholder. -/
theorem C9_priceText (h : Host) (hhost : ∀ q : ℚ, h.numberToString q ≠ "—") :
    (∀ price : Option JSNumber,
      priceText h price = "—" ↔ (price = none ∨ price = some .nan)) ∧
    (∀ q : ℚ, |q| < (10 : ℚ) ^ 21 →
      ∃ (n : Nat) (a b : List Char),
        priceText h (some (.fin q)) =
          String.mk ((if q < 0 then ['-'] else []) ++ (a ++ '.' :: b)) ∧
        a ≠ [] ∧ b.length = 5 ∧ (∀ c ∈ a ++ b, c.isDigit = true) ∧
        readNat 10 (a ++ b) = some n ∧
        |q| * (10 : ℚ) ^ 5 - 1 / 2 < (n : ℚ) ∧ (n : ℚ) ≤ |q| * (10 : ℚ) ^ 5 + 1 / 2) ∧
    (∀ q : ℚ, (10 : ℚ) ^ 21 ≤ |q| →
      priceText h (some (.fin q)) =
        String.mk ((if q < 0 then ['-'] else []) ++ (h.numberToString |q|).toList)) ∧
    priceText h (some .posInf) = "Infinity" ∧
    priceText h (some .negInf) = "-Infinity" ∧
    priceText h (some (.fin (123456789 / 100000000))) = "1.23457" ∧
    priceText h none = "—" ∧
    priceText h (some .nan) = "—" := by
  have hsmall : ∀ q : ℚ, |q| < (10 : ℚ) ^ 21 →
      ∃ (n : Nat) (a b : List Char),
        priceText h (some (.fin q)) =
          String.mk ((if q < 0 then ['-'] else []) ++ (a ++ '.' :: b)) ∧
        a ≠ [] ∧ b.length = 5 ∧ (∀ c ∈ a ++ b, c.isDigit = true) ∧
        readNat 10 (a ++ b) = some n ∧
        |q| * (10 : ℚ) ^ 5 - 1 / 2 < (n : ℚ) ∧ (n : ℚ) ≤ |q| * (10 : ℚ) ^ 5 + 1 / 2 := by
    intro q hq
    obtain ⟨n, a, b, he, h1, h2, h3, h4, h5, h6⟩ := toFixedChars_small h q hq
    refine ⟨n, a, b, ?_, h1, h2, h3, h4, h5, h6⟩
    simp only [priceText, JSNumber.isNaN, toFixed, he]
    rfl
  have hlarge : ∀ q : ℚ, (10 : ℚ) ^ 21 ≤ |q| →
      priceText h (some (.fin q)) =
        String.mk ((if q < 0 then ['-'] else []) ++ (h.numberToString |q|).toList) := by
    intro q hbig
    have hx : (if q < 0 then -q else q) = |q| := by
      split
      · rename_i hneg; exact (abs_of_neg hneg).symm
      · rename_i hnn; exact (abs_of_nonneg (not_lt.mp hnn)).symm
    simp only [priceText, JSNumber.isNaN, toFixed, toFixedChars, hx, if_pos hbig]
    rfl
  refine ⟨?_, hsmall, hlarge, rfl, rfl, toFixed_sample h, rfl, rfl⟩
  intro price
  constructor
  · intro hp
    cases price with
    | none => exact Or.inl rfl
    | some x =>
      cases x with
      | nan => exact Or.inr rfl
      | posInf =>
        have he : priceText h (some .posInf) = "Infinity" := rfl
        rw [he] at hp
        exact absurd hp (by decide)
      | negInf =>
        have he : priceText h (some .negInf) = "-Infinity" := rfl
        rw [he] at hp
        exact absurd hp (by decide)
      | fin q =>
        exfalso
        by_cases hq : |q| < (10 : ℚ) ^ 21
        · obtain ⟨n, a, b, he, _, hb, _⟩ := hsmall q hq
          rw [he] at hp
          have hd := congrArg (fun s : String => s.data.length) hp
          have hc : ("—" : String).data.length = 1 := by rfl
          simp only [List.length_append, List.length_cons, hb, hc] at hd
          omega
        · rw [hlarge q (not_lt.mp hq)] at hp
          by_cases hneg : q < 0
          · simp only [hneg, if_true] at hp
            have hd := congrArg String.data hp
            have hc : ("—" : String).data = ['—'] := by rfl
            rw [hc] at hd
            simp only [List.singleton_append, List.cons.injEq] at hd
            exact absurd hd.1 (by decide)
          · simp only [hneg, if_false, List.nil_append] at hp
            exact hhost |q| hp
  · intro hp
    rcases hp with rfl | rfl <;> rfl

/-- C9 as amended, for the sample host. -/
theorem C9_witness :
    priceText sampleHost (some (.fin (123456789 / 100000000))) = "1.23457" ∧
    (priceText sampleHost (some .posInf) = "—" ↔
      ((some JSNumber.posInf : Option JSNumber) = none ∨ some JSNumber.posInf = some .nan)) :=
  ⟨(C9_priceText sampleHost (fun _ => (by decide : ("1e+21" : String) ≠ "—"))).2.2.2.2.2.1,
   (C9_priceText sampleHost (fun _ => (by decide : ("1e+21" : String) ≠ "—"))).1 (some .posInf)⟩

end Ortex
